/-
Verification of the retrieval subsystem of the `ai_file_manager` repository.

The Lean definitions below are a shallow embedding of the Python sources:

* `src/python/vector_db.py`   — class `VectorDatabase` (FAISS-backed vector index)
* `src/python/file_manager.py` — `split_text_into_chunks_improved`, chunk-record
  construction in `process_file_embeddings`
* `src/python/controllers/search_controller.py` — `semantic_search` pipeline
* `src/python/database.py`    — `DatabaseManager.delete_file`

Modelling conventions:

* Python's insertion-ordered `dict` is modelled as an association list with
  unique keys; `d[k] = v` replaces the first binding in place (or appends),
  `del d[k]` removes the first binding.
* Vectors are `List ℚ`.  FAISS's `IndexFlatIP.search` is an external library
  call; it is modelled as exact top-k retrieval ranked by descending score
  with ties broken by ascending slot id, the documented behaviour of a flat
  (brute-force) index.  The L2 normalisation performed on stored and query
  vectors and the inner product computed by FAISS are folded into an abstract
  similarity function `sim : List ℚ → List ℚ → ℚ` over which all theorems
  quantify, since floating-point arithmetic is outside the embedding; all
  claimed properties are structural (which ids are returned, ordering,
  counts) and hold for every `sim`.
* `self.is_loaded` is modelled as `true` (the in-memory, initialised state);
  `initialize` itself is modelled separately over an explicit disk state.
* Persistence calls (`save_index`, `save_metadata`, `conn.commit`) have no
  in-memory effect and are omitted from state transitions; `commit` points
  are noted where a claim depends on them.
-/
import Mathlib

namespace AiFileManager

/-! ### Python dict as an insertion-ordered association list -/

/-- Keys of an association list, in insertion order. -/
def dictKeys (d : List (String × Nat)) : List String := d.map Prod.fst

/-- Python `k in d`. -/
def dictMem (k : String) (d : List (String × Nat)) : Bool :=
  d.any (fun p => p.1 = k)

/-- Python `d[k] = v`: replace the first binding of `k` in place, else append. -/
def dictSet : List (String × Nat) → String → Nat → List (String × Nat)
  | [], k, v => [(k, v)]
  | p :: rest, k, v =>
    if p.1 = k then (k, v) :: rest else p :: dictSet rest k v

/-- Python `del d[k]`: remove the first binding of `k`. -/
def dictDelete : List (String × Nat) → String → List (String × Nat)
  | [], _ => []
  | p :: rest, k => if p.1 = k then rest else p :: dictDelete rest k

/-- Python `d.get(k)`. -/
def dictGet : List (String × Nat) → String → Option Nat
  | [], _ => none
  | p :: rest, k => if p.1 = k then some p.2 else dictGet rest k

/-! ### `VectorDatabase` state (`src/python/vector_db.py`)

The per-id metadata dict stores, besides caller-supplied fields, the
`index_id` slot position — the only field the verified operations read —
so the dict is projected to `String × Nat` (embedding id ↦ `index_id`). -/

structure VectorDatabase where
  dimension : Nat
  /-- The FAISS `IndexFlatIP` backing store: slot `i` holds `index.get i`.
      `index.length` is `self.index.ntotal`. -/
  index : List (List ℚ)
  /-- `self.metadata`: insertion-ordered map embedding id ↦ `index_id`. -/
  metadata : List (String × Nat)

/-- `VectorDatabase.add_embedding` (vector_db.py lines 92–126).
    Returns the Python `bool` result and the updated state.  The dimension
    check precedes every mutation; on success the vector is appended at slot
    `ntotal - 1` and `metadata[embedding_id]` is set to that slot (an existing
    binding is overwritten — there is no duplicate check in the source). -/
def add_embedding (db : VectorDatabase) (embedding_id : String)
    (embedding : List ℚ) : Bool × VectorDatabase :=
  if embedding.length ≠ db.dimension then
    (false, db)
  else
    (true, { db with
      index := db.index ++ [embedding]
      metadata := dictSet db.metadata embedding_id db.index.length })

/-- `VectorDatabase.delete_embedding` (vector_db.py lines 216–233): logical
    delete — removes only the metadata binding, the vector stays in `index`. -/
def delete_embedding (db : VectorDatabase) (embedding_id : String) :
    Bool × VectorDatabase :=
  if dictMem embedding_id db.metadata then
    (true, { db with metadata := dictDelete db.metadata embedding_id })
  else
    (false, db)

/-- Comparison used to model FAISS flat-index ranking: descending score,
    ties broken by ascending slot id. -/
def slotLE (a b : Nat × ℚ) : Bool :=
  decide (b.2 < a.2) || (decide (a.2 = b.2) && decide (a.1 ≤ b.1))

/-- Model of `self.index.search(query, k)` on a FAISS `IndexFlatIP` holding
    `index` (slot order): every slot scored by `sim` against the query, ranked
    by descending score with ascending-slot tie-break, truncated to `k`.
    Since `k ≤ ntotal` at every call site, no `-1` padding entries arise. -/
def faissSearch (sim : List ℚ → List ℚ → ℚ) (index : List (List ℚ))
    (query : List ℚ) (k : Nat) : List (Nat × ℚ) :=
  (List.mergeSort (index.enum.map fun p => (p.1, sim query p.2)) slotLE).take k

/-- One entry of `search_similar`'s result list.  The Python dict carries
    `embedding_id`, `similarity_score` and the stored metadata whose
    `index_id` field is the slot; the slot is kept here for the ordering
    claims. -/
structure SearchResult where
  embedding_id : String
  similarity_score : ℚ
  index_id : Nat
  deriving DecidableEq, Repr

/-- First metadata binding whose `index_id` equals `slot` — the linear scan
    `for eid, meta in self.metadata.items(): if meta.get("index_id") == index_id`
    (vector_db.py lines 189–193). -/
def metaFind (metadata : List (String × Nat)) (slot : Nat) :
    Option (String × Nat) :=
  metadata.find? (fun p => p.2 = slot)

/-- The result-collection loop of `search_similar` (vector_db.py lines
    173–204): for each hit in FAISS order, skip scores below the threshold
    (`continue`, bypassing the break check), look up the metadata binding by
    slot, append when found, and `break` once `len(results) >= limit`. -/
def collectHits (metadata : List (String × Nat)) (threshold : ℚ) (limit : Nat) :
    List (Nat × ℚ) → List SearchResult → List SearchResult
  | [], acc => acc
  | (slot, score) :: rest, acc =>
    if score < threshold then
      collectHits metadata threshold limit rest acc
    else
      let acc' := match metaFind metadata slot with
        | some p => acc ++ [⟨p.1, score, p.2⟩]
        | none => acc
      if limit ≤ acc'.length then acc'
      else collectHits metadata threshold limit rest acc'

/-- `VectorDatabase.search_similar` (vector_db.py lines 147–214).
    Empty-state and dimension guards return `[]`; `search_k =
    min(limit * 2, ntotal)` hits are fetched, filtered and collected, and the
    final list is stably re-sorted by descending score
    (`results.sort(key=..., reverse=True)`, Python's stable sort). -/
def search_similar (sim : List ℚ → List ℚ → ℚ) (db : VectorDatabase)
    (query : List ℚ) (limit : Nat) (threshold : ℚ) : List SearchResult :=
  if db.metadata.isEmpty || db.index.isEmpty then []
  else if query.length ≠ db.dimension then []
  else
    let search_k := min (limit * 2) db.index.length
    let hits := faissSearch sim db.index query search_k
    List.mergeSort (collectHits db.metadata threshold limit hits [])
      (fun a b => decide (b.similarity_score ≤ a.similarity_score))

/-- `VectorDatabase.rebuild_index` (vector_db.py lines 306–340): replaces the
    backing store with a fresh empty index and reassigns `index_id := i` over
    the metadata in insertion order; no vectors are re-added here. -/
def rebuild_index (db : VectorDatabase) : VectorDatabase :=
  { db with
    index := []
    metadata := db.metadata.enum.map (fun p => (p.2.1, p.1)) }

/-- One element of the `chunks_with_embeddings` argument of
    `add_embeddings_from_chunks`. -/
structure ChunkEmb where
  embedding_id : String
  embedding : List ℚ

/-- The loop of `VectorDatabase.add_embeddings_from_chunks` (vector_db.py
    lines 342–368): a chunk is added when its id and vector are truthy and the
    id is still a live metadata key; `self.index.add` raises on a dimension
    mismatch, aborting the remaining iterations (the surrounding `except`
    swallows the exception, keeping the state mutated so far). -/
def addFromChunksLoop : VectorDatabase → List ChunkEmb → VectorDatabase
  | db, [] => db
  | db, c :: rest =>
    if c.embedding_id ≠ "" ∧ c.embedding ≠ [] ∧ dictMem c.embedding_id db.metadata then
      if c.embedding.length = db.dimension then
        addFromChunksLoop
          { db with
            index := db.index ++ [c.embedding]
            metadata := dictSet db.metadata c.embedding_id db.index.length }
          rest
      else db
    else addFromChunksLoop db rest

/-- `VectorDatabase.add_embeddings_from_chunks` (vector_db.py lines 342–368). -/
def add_embeddings_from_chunks (db : VectorDatabase)
    (chunks_with_embeddings : List ChunkEmb) : VectorDatabase :=
  addFromChunksLoop db chunks_with_embeddings

/-! ### Persistence / `initialize` (vector_db.py lines 29–81)

The two on-disk artifacts are modelled by their decoded contents; `none`
means the file is absent (or unreadable — both `load_index` and
`load_metadata` fall back on exception exactly as on absence). -/

structure DiskState where
  /-- `faiss_index.bin` decoded to its stored vectors, `none` if absent. -/
  index_file : Option (List (List ℚ))
  /-- `metadata.pkl` decoded, `none` if absent. -/
  metadata_file : Option (List (String × Nat))

/-- `VectorDatabase.initialize` (vector_db.py lines 29–50; the Python name is
    a Lean keyword, hence the renamed Lean symbol): loads whichever of the two files
    exists, silently substituting a fresh empty index / empty metadata dict
    for a missing one, and returns `True`; there is no consistency check
    between the pair. -/
def initialize_vdb (dimension : Nat) (disk : DiskState) : Bool × VectorDatabase :=
  let index := disk.index_file.getD []
  let metadata := disk.metadata_file.getD []
  (true, ⟨dimension, index, metadata⟩)

/-! ### Chunker (`src/python/file_manager.py` lines 1049–1087)

Text is `List Char`; `String.data` converts literals. -/

/-- Characters removed by Python's `str.strip()` (ASCII whitespace). -/
def isPySpace (c : Char) : Bool :=
  c = ' ' || c = '\t' || c = '\n' || c = '\r' || c = '\x0b' || c = '\x0c'

/-- Python `s.strip()`. -/
def pyStrip (s : List Char) : List Char :=
  ((s.dropWhile isPySpace).reverse.dropWhile isPySpace).reverse

/-- `sentence_endings = ['。', '！', '？', '；', '\n']` (line 1061) — note the
    set contains only CJK terminators and newline, not ASCII `'.'`. -/
def sentence_endings : List Char := ['。', '！', '？', '；', '\n']

/-- The per-character sentence-accumulation loop (lines 1062–1072): each
    terminator flushes `current_sentence.strip()`; a non-empty stripped
    remainder is flushed at the end. -/
def buildSentences : List Char → List Char → List (List Char)
  | [], current => if pyStrip current ≠ [] then [pyStrip current] else []
  | c :: rest, current =>
    let current' := current ++ [c]
    if c ∈ sentence_endings then pyStrip current' :: buildSentences rest []
    else buildSentences rest current'

/-- The sentence-packing loop (lines 1074–1085): greedily extend the current
    chunk while it stays within `max_length`, otherwise flush
    `current_chunk.strip()` (when non-empty) and restart from the sentence. -/
def mergeLoop (max_length : Nat) : List (List Char) → List Char → List (List Char)
  | [], current_chunk =>
    if current_chunk ≠ [] then [pyStrip current_chunk] else []
  | s :: rest, current_chunk =>
    if current_chunk.length + s.length ≤ max_length then
      mergeLoop max_length rest (current_chunk ++ s)
    else if current_chunk ≠ [] then
      pyStrip current_chunk :: mergeLoop max_length rest s
    else
      mergeLoop max_length rest s

/-- `split_text_into_chunks_improved` (lines 1049–1087): empty input yields
    `[]`; text already within the limit is returned verbatim as a single
    chunk; otherwise sentences are built, packed, and empty chunks filtered. -/
def split_text_into_chunks_improved (text : List Char) (max_length : Nat) :
    List (List Char) :=
  if text = [] then []
  else if text.length ≤ max_length then [text]
  else (mergeLoop max_length (buildSentences text []) []).filter (fun c => c ≠ [])

/-- A chunk record as built in `process_file_embeddings`
    (file_manager.py lines 1011–1026), projected to the fields the claims
    read (`content_type`, timestamps and the whitespace token count are
    constant or derived decoration). -/
structure ChunkData where
  chunk_id : String
  file_id : String
  chunk_index : Nat
  content : List Char
  char_count : Nat
  embedding_id : String
  deriving DecidableEq, Repr

/-- The `for i, chunk in enumerate(chunks)` record construction of
    `process_file_embeddings` (lines 1011–1026): `chunk_index := i` and
    `chunk_id = embedding_id = f"\x7bfile_id\x7d_chunk_\x7bi\x7d"`. -/
def chunks_data (file_id : String) (chunks : List (List Char)) : List ChunkData :=
  chunks.enum.map fun p =>
    { chunk_id := file_id ++ "_chunk_" ++ toString p.1
      file_id := file_id
      chunk_index := p.1
      content := p.2
      char_count := p.2.length
      embedding_id := file_id ++ "_chunk_" ++ toString p.1 }

/-! ### Metadata store rows and `semantic_search`
(`src/python/controllers/search_controller.py` lines 137–229,
`src/python/database.py` lines 465–490) -/

/-- A row of the `chunks` table, projected to the fields the claims read. -/
structure ChunkRow where
  chunk_id : String
  file_id : String
  chunk_index : Nat
  content : List Char
  deriving DecidableEq, Repr

/-- A row of the `files` table, projected to the fields the claims read. -/
structure FileRow where
  file_id : String
  name : String
  ftype : String
  category : String
  tags : List String
  deriving DecidableEq, Repr

/-- Caller-supplied filters of `SemanticSearchRequest`; the empty list models
    Python's falsy `None`/`[]` (filter disabled). -/
structure SearchFilters where
  file_types : List String
  categories : List String
  tags : List String

/-- The 200-character context preview
    (`content[:200] + "..." if len(content) > 200 else content`). -/
def previewOf (s : List Char) : List Char :=
  if 200 < s.length then s.take 200 ++ "...".data else s

/-- One element of `semantic_search`'s response `results` list, projected to
    the fields the claims read. -/
structure ResultItem where
  chunk_id : String
  file_id : String
  similarity_score : ℚ
  chunk_index : Nat
  prev_context : Option (List Char)
  next_context : Option (List Char)
  deriving DecidableEq, Repr

/-- One iteration of the result loop (search_controller.py lines 158–229):
    `continue` on a falsy embedding id, a metadata join miss
    (`get_chunk_by_embedding_id`), a missing file row (`get_file_by_id`), or a
    failed file-type / category / tag filter; otherwise stitch the neighbour
    previews (`get_chunk_by_index` at `chunk_index ± 1`) and emit the item.
    The store lookups are passed as functions. -/
def processCandidate (getChunkByEmbeddingId : String → Option ChunkRow)
    (getFileById : String → Option FileRow)
    (getChunkByIndex : String → Nat → Option ChunkRow)
    (filters : SearchFilters) (c : SearchResult) : Option ResultItem :=
  if c.embedding_id = "" then none
  else match getChunkByEmbeddingId c.embedding_id with
  | none => none
  | some chunk =>
    match getFileById chunk.file_id with
    | none => none
    | some f =>
      if filters.file_types ≠ [] ∧ f.ftype ∉ filters.file_types then none
      else if filters.categories ≠ [] ∧ f.category ∉ filters.categories then none
      else if filters.tags ≠ [] ∧ ¬ (∃ t ∈ filters.tags, t ∈ f.tags) then none
      else
        let prev := if 0 < chunk.chunk_index then
            (getChunkByIndex chunk.file_id (chunk.chunk_index - 1)).map
              (fun p => previewOf p.content)
          else none
        let next := (getChunkByIndex chunk.file_id (chunk.chunk_index + 1)).map
          (fun p => previewOf p.content)
        some ⟨chunk.chunk_id, chunk.file_id, c.similarity_score,
              chunk.chunk_index, prev, next⟩

/-- The `for result in similar_results[:request.limit]` loop body applied in
    order, skipped candidates dropped. -/
def buildResults (getChunkByEmbeddingId : String → Option ChunkRow)
    (getFileById : String → Option FileRow)
    (getChunkByIndex : String → Nat → Option ChunkRow)
    (filters : SearchFilters) : List SearchResult → List ResultItem
  | [] => []
  | c :: rest =>
    match processCandidate getChunkByEmbeddingId getFileById getChunkByIndex
        filters c with
    | some item => item :: buildResults getChunkByEmbeddingId getFileById
        getChunkByIndex filters rest
    | none => buildResults getChunkByEmbeddingId getFileById
        getChunkByIndex filters rest

/-- The join / filter / stitch stage of `semantic_search` (lines 157–229):
    the candidate list is truncated to the caller's `limit` *before* the loop
    runs (`similar_results[:request.limit]`, line 158). -/
def semantic_search_results (getChunkByEmbeddingId : String → Option ChunkRow)
    (getFileById : String → Option FileRow)
    (getChunkByIndex : String → Nat → Option ChunkRow)
    (filters : SearchFilters) (limit : Nat)
    (similar_results : List SearchResult) : List ResultItem :=
  buildResults getChunkByEmbeddingId getFileById getChunkByIndex filters
    (similar_results.take limit)

/-- The whole `semantic_search` pipeline after a successful query embedding:
    the vector index is queried with `limit = request.limit * 2` (line 141)
    and the hits are handed to `semantic_search_results`. -/
def semantic_search (sim : List ℚ → List ℚ → ℚ) (db : VectorDatabase)
    (getChunkByEmbeddingId : String → Option ChunkRow)
    (getFileById : String → Option FileRow)
    (getChunkByIndex : String → Nat → Option ChunkRow)
    (filters : SearchFilters) (query_embedding : List ℚ) (limit : Nat)
    (similarity_threshold : ℚ) : List ResultItem :=
  semantic_search_results getChunkByEmbeddingId getFileById getChunkByIndex
    filters limit
    (search_similar sim db query_embedding (limit * 2) similarity_threshold)

/-- The SQLite store owned by `DatabaseManager`, projected to the two tables
    `delete_file` touches. -/
structure MetaStore where
  files : List FileRow
  chunks : List ChunkRow
  deriving DecidableEq, Repr

/-- `DatabaseManager.delete_file` (database.py lines 465–490): chunks with the
    file id are deleted first, then the file row; `conn.commit()` runs
    unconditionally, and the returned flag is `files_deleted > 0` — the chunk
    deletion is committed even when no file row matched. -/
def delete_file (store : MetaStore) (file_id : String) : Bool × MetaStore :=
  let files_deleted := store.files.countP (fun f => f.file_id = file_id)
  let store' : MetaStore :=
    ⟨store.files.filter (fun f => f.file_id ≠ file_id),
     store.chunks.filter (fun c => c.file_id ≠ file_id)⟩
  (0 < files_deleted, store')

/-! ## Helper lemmas about the dict model -/

theorem dictMem_iff_mem_keys (k : String) (d : List (String × Nat)) :
    dictMem k d = true ↔ k ∈ dictKeys d := by
  induction d with
  | nil => simp [dictMem, dictKeys]
  | cons p rest ih =>
    simp only [dictMem, dictKeys, List.any_cons, List.map_cons, List.mem_cons,
      Bool.or_eq_true, decide_eq_true_eq] at *
    constructor
    · rintro (h | h)
      · exact Or.inl h.symm
      · exact Or.inr (ih.mp h)
    · rintro (h | h)
      · exact Or.inl h.symm
      · exact Or.inr (ih.mpr h)

theorem dictKeys_dictSet_of_mem (d : List (String × Nat)) (k : String) (v : Nat)
    (h : dictMem k d = true) : dictKeys (dictSet d k v) = dictKeys d := by
  induction d with
  | nil => simp [dictMem] at h
  | cons p rest ih =>
    by_cases hpk : p.1 = k
    · simp [dictSet, dictKeys, hpk]
    · have h' : dictMem k rest = true := by
        simpa [dictMem, hpk] using h
      simp [dictSet, dictKeys, hpk] at *
      exact ih h'

theorem not_mem_dictKeys_dictDelete (d : List (String × Nat)) (k : String)
    (hnd : (dictKeys d).Nodup) : k ∉ dictKeys (dictDelete d k) := by
  induction d with
  | nil => simp [dictDelete, dictKeys]
  | cons p rest ih =>
    simp only [dictKeys, List.map_cons, List.nodup_cons] at hnd
    by_cases hpk : p.1 = k
    · rw [dictDelete, if_pos hpk]
      exact hpk ▸ hnd.1
    · intro hmem
      simp only [dictDelete, hpk, if_false, dictKeys, List.map_cons,
        List.mem_cons] at hmem
      rcases hmem with h | h
      · exact hpk h.symm
      · exact ih hnd.2 h

theorem dictGet_dictSet_self (d : List (String × Nat)) (k : String) (v : Nat) :
    dictGet (dictSet d k v) k = some v := by
  induction d with
  | nil => simp [dictSet, dictGet]
  | cons p rest ih =>
    by_cases hpk : p.1 = k
    · simp [dictSet, dictGet, hpk]
    · simp [dictSet, dictGet, hpk, ih]

/-! ## Helper lemmas about `search_similar` membership -/

/-- Every result the collection loop emits beyond the accumulator carries an
    embedding id that is a live metadata key. -/
theorem collectHits_mem_keys (md : List (String × Nat)) (t : ℚ) (lim : Nat) :
    ∀ (hits : List (Nat × ℚ)) (acc : List SearchResult)
      (r : SearchResult), r ∈ collectHits md t lim hits acc →
      r ∈ acc ∨ r.embedding_id ∈ dictKeys md := by
  intro hits
  induction hits with
  | nil => intro acc r h; exact Or.inl h
  | cons hit rest ih =>
    intro acc r h
    rw [collectHits] at h
    by_cases hs : hit.2 < t
    · simpa [hs] using ih acc r (by simpa [hs] using h)
    · simp only [hs, if_false] at h
      cases hfind : metaFind md hit.1 with
      | none =>
        simp only [hfind] at h
        by_cases hb : lim ≤ acc.length
        · exact Or.inl (by simpa [hb] using h)
        · exact ih acc r (by simpa [hb] using h)
      | some p =>
        have hp : p ∈ md := List.mem_of_find?_eq_some hfind
        have hkey : p.1 ∈ dictKeys md := by
          unfold dictKeys
          exact List.mem_map_of_mem Prod.fst hp
        simp only [hfind, List.length_append, List.length_cons,
          List.length_nil, Nat.zero_add] at h
        by_cases hb : lim ≤ acc.length + 1
        · rw [if_pos hb] at h
          rcases List.mem_append.mp h with h' | h'
          · exact Or.inl h'
          · right
            have : r = ⟨p.1, hit.2, p.2⟩ := by simpa using h'
            rw [this]; exact hkey
        · rw [if_neg hb] at h
          rcases ih (acc ++ [⟨p.1, hit.2, p.2⟩]) r h with h' | h'
          · rcases List.mem_append.mp h' with h'' | h''
            · exact Or.inl h''
            · right
              have : r = ⟨p.1, hit.2, p.2⟩ := by simpa using h''
              rw [this]; exact hkey
          · exact Or.inr h'

/-- Every id returned by `search_similar` is a live metadata key. -/
theorem search_similar_mem_keys (sim : List ℚ → List ℚ → ℚ)
    (db : VectorDatabase) (q : List ℚ) (lim : Nat) (t : ℚ) (r : SearchResult)
    (h : r ∈ search_similar sim db q lim t) :
    r.embedding_id ∈ dictKeys db.metadata := by
  unfold search_similar at h
  by_cases h1 : db.metadata.isEmpty || db.index.isEmpty
  · simp [h1] at h
  · simp only [h1, Bool.false_eq_true, if_false] at h
    by_cases h2 : q.length ≠ db.dimension
    · simp [h2] at h
    · simp only [h2, if_false] at h
      have h3 := List.mem_mergeSort.mp h
      rcases collectHits_mem_keys db.metadata t lim _ [] r h3 with h4 | h4
      · simp at h4
      · exact h4

/-! ## C4 — duplicate `add_embedding` -/

/-- Reachable state with one live id: `add_embedding` on a fresh
    1-dimensional database. -/
def dbDup : VectorDatabase := (add_embedding ⟨1, [], []⟩ "a" [1]).2

/-- C4 counterexample: adding the already-live id `"a"` a second time does
    not fail — it returns `True` and moves the mapping to the new slot `1`,
    so the claimed `DuplicateId` rejection (with the existing mapping left
    intact) is false on the code. -/
theorem add_duplicate_succeeds_counterexample :
    dictMem "a" dbDup.metadata = true ∧
    (add_embedding dbDup "a" [2]).1 = true ∧
    dictGet (add_embedding dbDup "a" [2]).2.metadata "a" = some 1 ∧
    dictGet dbDup.metadata "a" = some 0 := by
  refine ⟨by decide, by decide, by decide, by decide⟩

/-- C4 amended: a second `add_embedding` for a live id with a well-dimensioned
    vector succeeds, appends the vector, and silently overwrites the id's
    mapping to the newly appended slot (the previous slot becomes an orphan);
    there is no duplicate check in the source. -/
theorem add_duplicate_overwrites_mapping (db : VectorDatabase) (id : String)
    (emb : List ℚ) (_hmem : dictMem id db.metadata = true)
    (hdim : emb.length = db.dimension) :
    (add_embedding db id emb).1 = true ∧
    (add_embedding db id emb).2.index = db.index ++ [emb] ∧
    dictGet (add_embedding db id emb).2.metadata id = some db.index.length := by
  have hd : ¬ emb.length ≠ db.dimension := by simpa using hdim
  refine ⟨?_, ?_, ?_⟩ <;>
    simp [add_embedding, hd, dictGet_dictSet_self]

/-- Witness for the amended C4 at the concrete reachable state `dbDup`. -/
theorem add_duplicate_overwrites_mapping_witness :
    (add_embedding dbDup "a" [2]).1 = true ∧
    (add_embedding dbDup "a" [2]).2.index = dbDup.index ++ [[2]] ∧
    dictGet (add_embedding dbDup "a" [2]).2.metadata "a" =
      some dbDup.index.length :=
  add_duplicate_overwrites_mapping dbDup "a" [2] (by decide) (by decide)

/-! ## C5 — dimension mismatch rejected before mutation -/

/-- C5: a vector of the wrong length makes `add_embedding` return `False`
    with the state untouched (the check precedes the FAISS append and the
    metadata write), and makes `search_similar` return `[]`. -/
theorem dimension_mismatch_no_mutation (sim : List ℚ → List ℚ → ℚ)
    (db : VectorDatabase) (id : String) (emb q : List ℚ) (lim : Nat) (t : ℚ)
    (hadd : emb.length ≠ db.dimension) (hq : q.length ≠ db.dimension) :
    add_embedding db id emb = (false, db) ∧
    search_similar sim db q lim t = [] := by
  constructor
  · simp [add_embedding, hadd]
  · unfold search_similar
    by_cases h1 : db.metadata.isEmpty || db.index.isEmpty
    · simp [h1]
    · simp [h1, hq]

/-- Witness for C5: a 3-component vector against a 2-dimensional database. -/
theorem dimension_mismatch_no_mutation_witness :
    add_embedding ⟨2, [[1, 0]], [("x", 0)]⟩ "y" [1, 2, 3] =
      (false, ⟨2, [[1, 0]], [("x", 0)]⟩) ∧
    search_similar (fun _ _ => (0 : ℚ)) ⟨2, [[1, 0]], [("x", 0)]⟩ [1, 2, 3] 5 0 =
      [] :=
  dimension_mismatch_no_mutation (fun _ _ => (0 : ℚ)) ⟨2, [[1, 0]], [("x", 0)]⟩
    "y" [1, 2, 3] [1, 2, 3] 5 0 (by decide) (by decide)

/-! ## C6 — loading an incomplete persistence pair -/

/-- C6 counterexample: a disk state holding the vector backing store but no
    metadata file loads successfully (`True`) with an empty metadata map —
    the claimed fatal `IndexCorrupt` error does not exist in the code. -/
theorem load_missing_metadata_not_fatal_counterexample :
    initialize_vdb 2 ⟨some [[1, 0]], none⟩ =
      (true, ⟨2, [[1, 0]], []⟩) := by
  rfl

/-- C6 amended: `initialize` always succeeds; a missing index file or
    metadata file is silently replaced by a fresh empty index or an empty
    metadata map, with no consistency check coupling the pair. -/
theorem load_silently_recovers (dim : Nat) (disk : DiskState) :
    (initialize_vdb dim disk).1 = true ∧
    (initialize_vdb dim disk).2.index = disk.index_file.getD [] ∧
    (initialize_vdb dim disk).2.metadata = disk.metadata_file.getD [] := by
  exact ⟨rfl, rfl, rfl⟩

/-! ## C7 — the "A. B. C." chunking scenario -/

/-- C7 counterexample: the code's sentence-terminal set contains only CJK
    terminators and newline, so `"A. B. C."` is never split — with
    `max_length = 3` (small enough to force a split after each sentence per
    the claim) the result is one chunk, not three. -/
theorem chunk_scenario_ascii_counterexample :
    (chunks_data "f" (split_text_into_chunks_improved "A. B. C.".data 3)).length
      = 1 ∧
    ¬ (chunks_data "f"
        (split_text_into_chunks_improved "A. B. C.".data 3)).length = 3 := by
  refine ⟨by decide, by decide⟩

/-- C7 amended: the one-chunk half of the scenario holds for `"A. B. C."`
    (`max_length = 8` fits all of it, chunk index 0); the three-chunk half
    holds only for the code's sentence terminators, e.g. `"A。B。C。"` with
    `max_length = 2` yields chunk indices 0, 1, 2 — with ASCII periods the
    text is returned as a single chunk for every `max_length`. -/
theorem chunk_scenario_sentence_endings :
    (chunks_data "f" (split_text_into_chunks_improved "A. B. C.".data 8)).map
        (fun c => (c.chunk_index, c.content)) = [(0, "A. B. C.".data)] ∧
    split_text_into_chunks_improved "A. B. C.".data 3 = ["A. B. C.".data] ∧
    (chunks_data "f" (split_text_into_chunks_improved "A。B。C。".data 2)).map
        (fun c => (c.chunk_index, c.content)) =
      [(0, "A。".data), (1, "B。".data), (2, "C。".data)] := by
  refine ⟨by decide, by decide, by decide⟩

/-! ## C10 — `delete_file` on a missing file id -/

/-- C10: when no `files` row carries the id, `delete_file` returns `False`,
    yet the chunk rows carrying the id are still deleted (and the deletion is
    committed — `conn.commit()` runs before the row-count test), so a `False`
    return does not imply the store was left unchanged. -/
theorem delete_file_missing_file_still_deletes_chunks (store : MetaStore)
    (fid : String) (h : ∀ f ∈ store.files, f.file_id ≠ fid) :
    (delete_file store fid).1 = false ∧
    (delete_file store fid).2.files = store.files ∧
    (delete_file store fid).2.chunks =
      store.chunks.filter (fun c => c.file_id ≠ fid) := by
  refine ⟨?_, ?_, rfl⟩
  · simp only [delete_file, decide_eq_true_eq]
    have : store.files.countP (fun f => decide (f.file_id = fid)) = 0 :=
      List.countP_eq_zero.mpr (by intro f hf; simpa using h f hf)
    simp [this]
  · simp only [delete_file]
    exact List.filter_eq_self.mpr (by intro f hf; simpa using h f hf)

/-- Witness for C10: a store holding one orphan chunk for `"f1"` and no file
    row — `delete_file` returns `False` yet removes the chunk. -/
theorem delete_file_missing_file_still_deletes_chunks_witness :
    (delete_file ⟨[], [⟨"c1", "f1", 0, "hi".data⟩]⟩ "f1").1 = false ∧
    (delete_file ⟨[], [⟨"c1", "f1", 0, "hi".data⟩]⟩ "f1").2.chunks = [] ∧
    (delete_file ⟨[], [⟨"c1", "f1", 0, "hi".data⟩]⟩ "f1").2 ≠
      ⟨[], [⟨"c1", "f1", 0, "hi".data⟩]⟩ := by
  refine ⟨(delete_file_missing_file_still_deletes_chunks
    ⟨[], [⟨"c1", "f1", 0, "hi".data⟩]⟩ "f1" (by decide)).1, by decide, by decide⟩

/-! ## C8 — no empty / whitespace-only chunks -/

/-- A non-empty stripped string contains a non-whitespace character (its
    head, by the left `dropWhile`). -/
theorem pyStrip_has_nonspace (s : List Char) (h : pyStrip s ≠ []) :
    ∃ c ∈ pyStrip s, isPySpace c = false := by
  unfold pyStrip at *
  set u := (s.dropWhile isPySpace).reverse.dropWhile isPySpace with hu
  have hne : u ≠ [] := by
    intro h0
    exact h (by rw [h0]; rfl)
  refine ⟨u.head hne, ?_, ?_⟩
  · rw [List.mem_reverse]
    exact List.head_mem hne
  · exact List.head_dropWhile_not isPySpace _ hne

/-- Every chunk the packing loop emits is the `strip()` of some string. -/
theorem mem_mergeLoop_isStrip (ml : Nat) :
    ∀ (sents : List (List Char)) (cur ch : List Char),
      ch ∈ mergeLoop ml sents cur → ∃ s, ch = pyStrip s := by
  intro sents
  induction sents with
  | nil =>
    intro cur ch h
    rw [mergeLoop] at h
    by_cases hc : cur ≠ []
    · rw [if_pos hc] at h
      exact ⟨cur, (by simpa using h)⟩
    · rw [if_neg hc] at h
      simp at h
  | cons s rest ih =>
    intro cur ch h
    rw [mergeLoop] at h
    by_cases h1 : cur.length + s.length ≤ ml
    · exact ih (cur ++ s) ch (by simpa [h1] using h)
    · rw [if_neg h1] at h
      by_cases h2 : cur ≠ []
      · rw [if_pos h2] at h
        rcases List.mem_cons.mp h with h' | h'
        · exact ⟨cur, h'⟩
        · exact ih s ch h'
      · rw [if_neg h2] at h
        exact ih s ch h

/-- C8 counterexample: a whitespace-only input short enough for the
    return-verbatim path is emitted unchanged, so the output contains a
    whitespace-only chunk. -/
theorem whitespace_only_chunk_counterexample :
    split_text_into_chunks_improved " ".data 5 = [" ".data] ∧
    ∀ c ∈ " ".data, isPySpace c = true := by
  refine ⟨by decide, by decide⟩

/-- C8 amended: no chunk is ever the empty string; and on the splitting path
    (`len(text) > max_length`) no chunk is whitespace-only — but the
    short-text path returns the input verbatim, which may be whitespace-only. -/
theorem chunks_nonempty_and_split_path_nonspace (text : List Char)
    (max_length : Nat) :
    (∀ ch ∈ split_text_into_chunks_improved text max_length, ch ≠ []) ∧
    (max_length < text.length →
      ∀ ch ∈ split_text_into_chunks_improved text max_length,
        ∃ c ∈ ch, isPySpace c = false) := by
  constructor
  · intro ch hch
    unfold split_text_into_chunks_improved at hch
    by_cases h0 : text = []
    · simp [h0] at hch
    · rw [if_neg h0] at hch
      by_cases h1 : text.length ≤ max_length
      · rw [if_pos h1] at hch
        simpa [List.mem_singleton.mp hch] using h0
      · rw [if_neg h1] at hch
        simpa using (List.mem_filter.mp hch).2
  · intro hlen ch hch
    unfold split_text_into_chunks_improved at hch
    have h0 : text ≠ [] := by
      intro h; rw [h] at hlen; simp at hlen
    have h1 : ¬ text.length ≤ max_length := by omega
    rw [if_neg h0, if_neg h1] at hch
    have hmem := (List.mem_filter.mp hch).1
    have hne : ch ≠ [] := by simpa using (List.mem_filter.mp hch).2
    rcases mem_mergeLoop_isStrip max_length _ _ _ hmem with ⟨s, hs⟩
    rw [hs] at hne ⊢
    exact pyStrip_has_nonspace s hne

/-- Witness for the amended C8 on the splitting path. -/
theorem chunks_nonempty_and_split_path_nonspace_witness :
    (∀ ch ∈ split_text_into_chunks_improved "A。B。".data 2, ch ≠ []) ∧
    ((2 : Nat) < "A。B。".data.length ∧
      ∀ ch ∈ split_text_into_chunks_improved "A。B。".data 2,
        ∃ c ∈ ch, isPySpace c = false) :=
  ⟨(chunks_nonempty_and_split_path_nonspace "A。B。".data 2).1,
   by decide,
   (chunks_nonempty_and_split_path_nonspace "A。B。".data 2).2 (by decide)⟩

/-! ## C9 — candidate truncation before the join -/

/-- The join/filter loop keeps exactly the candidates whose processing
    succeeds, one result item each. -/
theorem buildResults_length (getChunkByEmbeddingId : String → Option ChunkRow)
    (getFileById : String → Option FileRow)
    (getChunkByIndex : String → Nat → Option ChunkRow)
    (filters : SearchFilters) (l : List SearchResult) :
    (buildResults getChunkByEmbeddingId getFileById getChunkByIndex filters
        l).length =
      (l.filter (fun c => (processCandidate getChunkByEmbeddingId getFileById
        getChunkByIndex filters c).isSome)).length := by
  induction l with
  | nil => rfl
  | cons c rest ih =>
    rw [buildResults]
    cases hc : processCandidate getChunkByEmbeddingId getFileById
        getChunkByIndex filters c with
    | some item => simp [List.filter_cons, hc, ih]
    | none => simp [List.filter_cons, hc, ih]

/-- C9: the coordinator truncates the vector hits to the caller's `limit`
    before the join / file-filter / context-stitch loop runs, so candidates
    beyond the first `limit` are never considered, the final count is exactly
    the number of surviving candidates among the first `limit`, and a join
    miss or filter drop among those first `limit` leaves the final count
    below `limit` — the ×2 over-fetch never back-fills. -/
theorem semantic_search_truncates_before_join
    (getChunkByEmbeddingId : String → Option ChunkRow)
    (getFileById : String → Option FileRow)
    (getChunkByIndex : String → Nat → Option ChunkRow)
    (filters : SearchFilters) (limit : Nat)
    (similar_results : List SearchResult) :
    semantic_search_results getChunkByEmbeddingId getFileById getChunkByIndex
        filters limit similar_results =
      semantic_search_results getChunkByEmbeddingId getFileById getChunkByIndex
        filters limit (similar_results.take limit) ∧
    (semantic_search_results getChunkByEmbeddingId getFileById getChunkByIndex
        filters limit similar_results).length =
      ((similar_results.take limit).filter (fun c =>
        (processCandidate getChunkByEmbeddingId getFileById getChunkByIndex
          filters c).isSome)).length ∧
    (limit ≤ similar_results.length →
      (∃ c ∈ similar_results.take limit,
        processCandidate getChunkByEmbeddingId getFileById getChunkByIndex
          filters c = none) →
      (semantic_search_results getChunkByEmbeddingId getFileById getChunkByIndex
        filters limit similar_results).length < limit) := by
  refine ⟨?_, buildResults_length _ _ _ _ _, ?_⟩
  · unfold semantic_search_results
    rw [List.take_take, Nat.min_self]
  · intro hlen ⟨c, hc, hnone⟩
    unfold semantic_search_results
    rw [buildResults_length]
    have hlt : ((similar_results.take limit).filter (fun c =>
        (processCandidate getChunkByEmbeddingId getFileById getChunkByIndex
          filters c).isSome)).length < (similar_results.take limit).length := by
      apply List.length_filter_lt_length_iff_exists.mpr
      exact ⟨c, hc, by simp [hnone]⟩
    rwa [List.length_take_of_le hlen] at hlt

/-- Concrete stores for the C9 witness: three above-threshold candidates, the
    second of which has no chunk row (a join miss). -/
def joinW : String → Option ChunkRow := fun s =>
  if s = "e1" then some ⟨"c1", "f1", 0, "t1".data⟩
  else if s = "e3" then some ⟨"c3", "f1", 2, "t3".data⟩
  else none

def fileOfW : String → Option FileRow := fun s =>
  if s = "f1" then some ⟨"f1", "doc", "txt", "cat", []⟩ else none

def candsW : List SearchResult :=
  [⟨"e1", 9, 0⟩, ⟨"e2", 8, 1⟩, ⟨"e3", 7, 2⟩]

/-- Witness for C9: with `limit = 2`, the join miss on the second candidate
    leaves one final result (< 2) although the third candidate would have
    survived. -/
theorem semantic_search_truncates_before_join_witness :
    (2 ≤ candsW.length ∧
      (∃ c ∈ candsW.take 2,
        processCandidate joinW fileOfW (fun _ _ => none) ⟨[], [], []⟩ c = none)) ∧
    (semantic_search_results joinW fileOfW (fun _ _ => none) ⟨[], [], []⟩ 2
      candsW).length < 2 :=
  ⟨⟨by decide, ⟨⟨"e2", 8, 1⟩, by decide, by decide⟩⟩,
    (semantic_search_truncates_before_join joinW fileOfW (fun _ _ => none)
      ⟨[], [], []⟩ 2 candsW).2.2 (by decide)
      ⟨⟨"e2", 8, 1⟩, by decide, by decide⟩⟩

/-! ## C1 — logical delete excludes the id from every later search -/

/-- C1: once `delete_embedding id` has returned `True`, a `search_similar`
    over any query (any similarity function, limit and threshold) never
    returns a result with that embedding id — the deleted id's metadata
    binding is gone and results are drawn only from live bindings — while the
    physical vector count `index.ntotal` is unchanged (only a `rebuild`
    discards slots).  The `Nodup` hypothesis is the Python-dict key
    uniqueness invariant. -/
theorem delete_then_search_never_returns_id (db : VectorDatabase) (id : String)
    (hnd : (dictKeys db.metadata).Nodup)
    (hdel : (delete_embedding db id).1 = true) :
    (delete_embedding db id).2.index.length = db.index.length ∧
    ∀ (sim : List ℚ → List ℚ → ℚ) (q : List ℚ) (lim : Nat) (t : ℚ)
      (r : SearchResult),
      r ∈ search_similar sim (delete_embedding db id).2 q lim t →
      r.embedding_id ≠ id := by
  have hmem : dictMem id db.metadata = true := by
    by_contra h
    simp [delete_embedding, h] at hdel
  have heq : (delete_embedding db id).2 =
      { db with metadata := dictDelete db.metadata id } := by
    simp [delete_embedding, hmem]
  constructor
  · rw [heq]
  · intro sim q lim t r hr hid
    have hkey := search_similar_mem_keys sim _ q lim t r hr
    rw [heq] at hkey
    rw [hid] at hkey
    exact not_mem_dictKeys_dictDelete db.metadata id hnd hkey

/-- Reachable two-vector state for the C1 witness. -/
def dbDel : VectorDatabase :=
  (add_embedding (add_embedding ⟨2, [], []⟩ "x" [1, 0]).2 "y" [0, 1]).2

/-- Witness for C1: deleting `"x"` from the concrete two-vector database
    keeps both physical vectors yet excludes `"x"` from every search. -/
theorem delete_then_search_never_returns_id_witness :
    ((dictKeys dbDel.metadata).Nodup ∧ (delete_embedding dbDel "x").1 = true) ∧
    (delete_embedding dbDel "x").2.index.length = dbDel.index.length ∧
    ∀ (sim : List ℚ → List ℚ → ℚ) (q : List ℚ) (lim : Nat) (t : ℚ)
      (r : SearchResult),
      r ∈ search_similar sim (delete_embedding dbDel "x").2 q lim t →
      r.embedding_id ≠ "x" :=
  ⟨⟨by decide, by decide⟩,
   (delete_then_search_never_returns_id dbDel "x" (by decide) (by decide)).1,
   (delete_then_search_never_returns_id dbDel "x" (by decide) (by decide)).2⟩

/-! ## C2 — rebuild over the live entries -/

theorem dictKeys_rebuild (db : VectorDatabase) :
    dictKeys (rebuild_index db).metadata = dictKeys db.metadata := by
  unfold rebuild_index dictKeys
  rw [List.map_map]
  calc db.metadata.enum.map (Prod.fst ∘ fun p => (p.2.1, p.1))
      = (db.metadata.enum.map Prod.snd).map Prod.fst := by
        rw [List.map_map]; rfl
    _ = db.metadata.map Prod.fst := by rw [List.enum_map_snd]

/-- The re-add loop, fed entries that are all non-empty, well-dimensioned and
    live, appends exactly one vector per entry and leaves the key set
    unchanged. -/
theorem addFromChunksLoop_spec :
    ∀ (entries : List ChunkEmb) (db : VectorDatabase),
      (∀ e ∈ entries, e.embedding_id ≠ "" ∧ e.embedding ≠ [] ∧
        e.embedding.length = db.dimension ∧
        dictMem e.embedding_id db.metadata = true) →
      (addFromChunksLoop db entries).index.length =
        db.index.length + entries.length ∧
      dictKeys (addFromChunksLoop db entries).metadata =
        dictKeys db.metadata := by
  intro entries
  induction entries with
  | nil => intro db _; exact ⟨rfl, rfl⟩
  | cons e rest ih =>
    intro db h
    obtain ⟨hid, hne, hdim, hmem⟩ := h e (List.mem_cons_self e rest)
    rw [addFromChunksLoop, if_pos ⟨hid, hne, hmem⟩, if_pos hdim]
    set db₂ : VectorDatabase :=
      { db with
        index := db.index ++ [e.embedding]
        metadata := dictSet db.metadata e.embedding_id db.index.length }
      with hdb₂
    have hkeys₂ : dictKeys db₂.metadata = dictKeys db.metadata := by
      rw [hdb₂]
      exact dictKeys_dictSet_of_mem db.metadata e.embedding_id
        db.index.length hmem
    have hrest : ∀ e' ∈ rest, e'.embedding_id ≠ "" ∧ e'.embedding ≠ [] ∧
        e'.embedding.length = db₂.dimension ∧
        dictMem e'.embedding_id db₂.metadata = true := by
      intro e' he'
      obtain ⟨h1, h2, h3, h4⟩ := h e' (List.mem_cons_of_mem e he')
      refine ⟨h1, h2, h3, ?_⟩
      rw [dictMem_iff_mem_keys, hkeys₂, ← dictMem_iff_mem_keys]
      exact h4
    obtain ⟨hlen, hk⟩ := ih db₂ hrest
    constructor
    · rw [hlen, hdb₂]
      simp only [List.length_append, List.length_cons, List.length_nil]
      omega
    · rw [hk, hkeys₂]

/-- C2: rebuilding over exactly the live entries (each non-empty,
    well-dimensioned, ids exactly the live metadata keys) leaves
    `index.ntotal` equal to the number of entries, and every later search
    over any query returns only ids present in the entries. -/
theorem rebuild_search_only_live_entries (db : VectorDatabase)
    (entries : List ChunkEmb)
    (hids : entries.map ChunkEmb.embedding_id = dictKeys db.metadata)
    (hvalid : ∀ e ∈ entries, e.embedding_id ≠ "" ∧ e.embedding ≠ [] ∧
      e.embedding.length = db.dimension) :
    (add_embeddings_from_chunks (rebuild_index db) entries).index.length =
      entries.length ∧
    ∀ (sim : List ℚ → List ℚ → ℚ) (q : List ℚ) (lim : Nat) (t : ℚ)
      (r : SearchResult),
      r ∈ search_similar sim (add_embeddings_from_chunks (rebuild_index db)
        entries) q lim t →
      r.embedding_id ∈ entries.map ChunkEmb.embedding_id := by
  have hloop := addFromChunksLoop_spec entries (rebuild_index db) (by
    intro e he
    obtain ⟨h1, h2, h3⟩ := hvalid e he
    refine ⟨h1, h2, h3, ?_⟩
    rw [dictMem_iff_mem_keys, dictKeys_rebuild, ← hids]
    exact List.mem_map_of_mem ChunkEmb.embedding_id he)
  constructor
  · rw [add_embeddings_from_chunks, hloop.1]
    simp [rebuild_index]
  · intro sim q lim t r hr
    have hkey := search_similar_mem_keys sim _ q lim t r hr
    rw [add_embeddings_from_chunks] at hkey
    rw [hloop.2, dictKeys_rebuild, ← hids] at hkey
    exact hkey

/-- State with two live ids for the C2 witness. -/
def dbRebuild : VectorDatabase := ⟨2, [[1, 0], [0, 1]], [("x", 0), ("y", 1)]⟩

/-- Witness for C2 at concrete live entries `x`, `y`. -/
theorem rebuild_search_only_live_entries_witness :
    (([⟨"x", [1, 0]⟩, ⟨"y", [0, 1]⟩] : List ChunkEmb).map
        ChunkEmb.embedding_id = dictKeys dbRebuild.metadata) ∧
    (add_embeddings_from_chunks (rebuild_index dbRebuild)
      [⟨"x", [1, 0]⟩, ⟨"y", [0, 1]⟩]).index.length = 2 ∧
    ∀ (sim : List ℚ → List ℚ → ℚ) (q : List ℚ) (lim : Nat) (t : ℚ)
      (r : SearchResult),
      r ∈ search_similar sim (add_embeddings_from_chunks
        (rebuild_index dbRebuild) [⟨"x", [1, 0]⟩, ⟨"y", [0, 1]⟩]) q lim t →
      r.embedding_id ∈ (([⟨"x", [1, 0]⟩, ⟨"y", [0, 1]⟩] : List ChunkEmb).map
        ChunkEmb.embedding_id) :=
  ⟨by decide,
   (rebuild_search_only_live_entries dbRebuild [⟨"x", [1, 0]⟩, ⟨"y", [0, 1]⟩]
      (by decide) (by decide)).1,
   (rebuild_search_only_live_entries dbRebuild [⟨"x", [1, 0]⟩, ⟨"y", [0, 1]⟩]
      (by decide) (by decide)).2⟩

/-! ## C3 — limit, threshold and ordering of `search_similar` -/

/-- Strict ranking on FAISS hits `(slot, score)`: descending score, ties by
    ascending slot. -/
def faissRank (a b : Nat × ℚ) : Prop :=
  b.2 < a.2 ∨ (a.2 = b.2 ∧ a.1 < b.1)

/-- Strict ranking on search results: descending similarity score, ties by
    ascending slot (`index_id`, i.e. insertion order). -/
def resultRank (a b : SearchResult) : Prop :=
  b.similarity_score < a.similarity_score ∨
    (a.similarity_score = b.similarity_score ∧ a.index_id < b.index_id)

/-- A collected result ranks strictly before a later hit. -/
def resultBeforeHit (r : SearchResult) (h : Nat × ℚ) : Prop :=
  h.2 < r.similarity_score ∨ (r.similarity_score = h.2 ∧ r.index_id < h.1)

theorem slotLE_total (a b : Nat × ℚ) : slotLE a b || slotLE b a := by
  simp only [slotLE, Bool.or_eq_true, Bool.and_eq_true, decide_eq_true_eq]
  rcases lt_trichotomy a.2 b.2 with h | h | h
  · exact Or.inr (Or.inl h)
  · rcases Nat.le_total a.1 b.1 with h' | h'
    · exact Or.inl (Or.inr ⟨h, h'⟩)
    · exact Or.inr (Or.inr ⟨h.symm, h'⟩)
  · exact Or.inl (Or.inl h)

theorem slotLE_trans (a b c : Nat × ℚ) (h1 : slotLE a b) (h2 : slotLE b c) :
    slotLE a c := by
  simp only [slotLE, Bool.or_eq_true, Bool.and_eq_true, decide_eq_true_eq]
    at h1 h2 ⊢
  rcases h1 with h1 | ⟨h1e, h1n⟩ <;> rcases h2 with h2 | ⟨h2e, h2n⟩
  · exact Or.inl (h2.trans h1)
  · exact Or.inl (h2e ▸ h1)
  · exact Or.inl (h1e ▸ h2)
  · exact Or.inr ⟨h1e.trans h2e, h1n.trans h2n⟩

/-- The modelled FAISS hit list is strictly ranked: descending score with
    ascending-slot tie-break (slots are the distinct positions `0..n-1`). -/
theorem faissSearch_pairwise (sim : List ℚ → List ℚ → ℚ)
    (index : List (List ℚ)) (q : List ℚ) (k : Nat) :
    (faissSearch sim index q k).Pairwise faissRank := by
  unfold faissSearch
  apply List.Pairwise.sublist (List.take_sublist _ _)
  set L := index.enum.map fun p => (p.1, sim q p.2) with hL
  have hsorted : (List.mergeSort L slotLE).Pairwise (fun a b => slotLE a b) :=
    List.sorted_mergeSort slotLE_trans slotLE_total L
  have hfst : ((List.mergeSort L slotLE).map Prod.fst).Nodup := by
    have hperm : List.Perm ((List.mergeSort L slotLE).map Prod.fst)
        (L.map Prod.fst) :=
      (List.mergeSort_perm L slotLE).map Prod.fst
    apply hperm.nodup_iff.mpr
    have : L.map Prod.fst = List.range index.length := by
      rw [hL, List.map_map]
      have : (Prod.fst ∘ fun p : Nat × List ℚ => (p.1, sim q p.2)) =
          Prod.fst := rfl
      rw [this, List.enum_map_fst]
    rw [this]
    exact List.nodup_range index.length
  have hne : (List.mergeSort L slotLE).Pairwise (fun a b => a.1 ≠ b.1) :=
    List.pairwise_map.mp hfst
  refine (hsorted.and hne).imp ?_
  rintro a b ⟨hab, hne'⟩
  simp only [slotLE, Bool.or_eq_true, Bool.and_eq_true, decide_eq_true_eq]
    at hab
  rcases hab with h | ⟨he, hn⟩
  · exact Or.inl h
  · exact Or.inr ⟨he, Nat.lt_of_le_of_ne hn hne'⟩

/-- The collection loop preserves strict ranking: given strictly ranked hits
    and an accumulator strictly ranked before them, the output is strictly
    ranked. -/
theorem collectHits_pairwise (md : List (String × Nat)) (t : ℚ) (lim : Nat) :
    ∀ (hits : List (Nat × ℚ)) (acc : List SearchResult),
      hits.Pairwise faissRank → acc.Pairwise resultRank →
      (∀ r ∈ acc, ∀ h ∈ hits, resultBeforeHit r h) →
      (collectHits md t lim hits acc).Pairwise resultRank := by
  intro hits
  induction hits with
  | nil => intro acc _ hacc _; exact hacc
  | cons hit rest ih =>
    intro acc hp hacc hbefore
    obtain ⟨hhead, hrest⟩ := List.pairwise_cons.mp hp
    rw [collectHits]
    by_cases hs : hit.2 < t
    · rw [if_pos hs]
      exact ih acc hrest hacc
        (fun r hr h hh => hbefore r hr h (List.mem_cons_of_mem hit hh))
    · rw [if_neg hs]
      cases hfind : metaFind md hit.1 with
      | none =>
        simp only
        by_cases hb : lim ≤ acc.length
        · rw [if_pos hb]; exact hacc
        · rw [if_neg hb]
          exact ih acc hrest hacc
            (fun r hr h hh => hbefore r hr h (List.mem_cons_of_mem hit hh))
      | some p =>
        have hslot : p.2 = hit.1 := by
          have hfind' : List.find? (fun p => decide (p.2 = hit.1)) md = some p := by
            simpa [metaFind] using hfind
          have h2 := List.find?_some hfind'
          simp only [decide_eq_true_eq] at h2
          exact h2
        simp only
        set nr : SearchResult := ⟨p.1, hit.2, p.2⟩ with hnr
        have haccnr : (acc ++ [nr]).Pairwise resultRank := by
          rw [List.pairwise_append]
          refine ⟨hacc, List.pairwise_singleton _ _, ?_⟩
          intro a ha b hb
          rw [List.mem_singleton.mp hb, hnr]
          have := hbefore a ha hit (List.mem_cons_self hit rest)
          rcases this with h' | h'
          · exact Or.inl h'
          · exact Or.inr ⟨h'.1, hslot ▸ h'.2⟩
        by_cases hb : lim ≤ (acc ++ [nr]).length
        · rw [if_pos hb]; exact haccnr
        · rw [if_neg hb]
          apply ih (acc ++ [nr]) hrest haccnr
          intro r hr h hh
          rcases List.mem_append.mp hr with h' | h'
          · exact hbefore r h' h (List.mem_cons_of_mem hit hh)
          · rw [List.mem_singleton.mp h', hnr]
            have := hhead h hh
            rcases this with h'' | h''
            · exact Or.inl h''
            · exact Or.inr ⟨h''.1, hslot ▸ h''.2⟩

/-- Every collected result clears the threshold. -/
theorem collectHits_threshold (md : List (String × Nat)) (t : ℚ) (lim : Nat) :
    ∀ (hits : List (Nat × ℚ)) (acc : List SearchResult),
      (∀ r ∈ acc, t ≤ r.similarity_score) →
      ∀ r ∈ collectHits md t lim hits acc, t ≤ r.similarity_score := by
  intro hits
  induction hits with
  | nil => intro acc hacc r hr; exact hacc r hr
  | cons hit rest ih =>
    intro acc hacc r hr
    rw [collectHits] at hr
    by_cases hs : hit.2 < t
    · rw [if_pos hs] at hr
      exact ih acc hacc r hr
    · rw [if_neg hs] at hr
      have hscore : t ≤ hit.2 := le_of_not_lt hs
      cases hfind : metaFind md hit.1 with
      | none =>
        rw [hfind] at hr
        simp only at hr
        by_cases hb : lim ≤ acc.length
        · rw [if_pos hb] at hr; exact hacc r hr
        · rw [if_neg hb] at hr; exact ih acc hacc r hr
      | some p =>
        rw [hfind] at hr
        simp only at hr
        have hacc' : ∀ r' ∈ acc ++ [(⟨p.1, hit.2, p.2⟩ : SearchResult)],
            t ≤ r'.similarity_score := by
          intro r' hr'
          rcases List.mem_append.mp hr' with h' | h'
          · exact hacc r' h'
          · rw [List.mem_singleton.mp h']; exact hscore
        by_cases hb : lim ≤ (acc ++ [(⟨p.1, hit.2, p.2⟩ : SearchResult)]).length
        · rw [if_pos hb] at hr; exact hacc' r hr
        · rw [if_neg hb] at hr; exact ih _ hacc' r hr

/-- The collection loop never grows past `limit` when the accumulator is
    still below it (the `break` fires as soon as `limit` is reached). -/
theorem collectHits_length (md : List (String × Nat)) (t : ℚ) (lim : Nat) :
    ∀ (hits : List (Nat × ℚ)) (acc : List SearchResult),
      acc.length < lim →
      (collectHits md t lim hits acc).length ≤ lim := by
  intro hits
  induction hits with
  | nil => intro acc hacc; rw [collectHits]; omega
  | cons hit rest ih =>
    intro acc hacc
    rw [collectHits]
    by_cases hs : hit.2 < t
    · rw [if_pos hs]; exact ih acc hacc
    · rw [if_neg hs]
      cases hfind : metaFind md hit.1 with
      | none =>
        simp only
        by_cases hb : lim ≤ acc.length
        · omega
        · rw [if_neg hb]; exact ih acc hacc
      | some p =>
        simp only
        by_cases hb : lim ≤ (acc ++ [(⟨p.1, hit.2, p.2⟩ : SearchResult)]).length
        · rw [if_pos hb]
          simp only [List.length_append, List.length_cons, List.length_nil]
          omega
        · rw [if_neg hb]
          apply ih
          simp only [List.length_append, List.length_cons, List.length_nil]
            at hb ⊢
          omega

/-- C3: with a well-dimensioned query against a non-empty index, the returned
    list holds at most `limit` results, every similarity score clears the
    threshold, and the results are strictly ordered by descending score with
    ties broken by ascending slot id (insertion order). -/
theorem search_similar_limit_threshold_order (sim : List ℚ → List ℚ → ℚ)
    (db : VectorDatabase) (q : List ℚ) (limit : Nat) (threshold : ℚ)
    (hq : q.length = db.dimension) (hmd : db.metadata ≠ [])
    (hidx : db.index ≠ []) :
    (search_similar sim db q limit threshold).length ≤ limit ∧
    (∀ r ∈ search_similar sim db q limit threshold,
      threshold ≤ r.similarity_score) ∧
    (search_similar sim db q limit threshold).Pairwise resultRank := by
  have h1 : (db.metadata.isEmpty || db.index.isEmpty) = false := by
    simp [List.isEmpty_iff, hmd, hidx]
  have h2 : ¬ q.length ≠ db.dimension := by simpa using hq
  have hexpand : search_similar sim db q limit threshold =
      List.mergeSort (collectHits db.metadata threshold limit
        (faissSearch sim db.index q (min (limit * 2) db.index.length)) [])
        (fun a b => decide (b.similarity_score ≤ a.similarity_score)) := by
    rw [search_similar, h1]
    simp only [Bool.false_eq_true, if_false, if_neg h2]
  set hits := faissSearch sim db.index q (min (limit * 2) db.index.length)
    with hhits
  have hcoll : (collectHits db.metadata threshold limit hits []).Pairwise
      resultRank :=
    collectHits_pairwise db.metadata threshold limit hits []
      (faissSearch_pairwise sim db.index q _) (List.Pairwise.nil)
      (by intro r hr; simp at hr)
  have hle : (collectHits db.metadata threshold limit hits []).Pairwise
      (fun a b => decide (b.similarity_score ≤ a.similarity_score)) := by
    refine hcoll.imp ?_
    intro a b hab
    rcases hab with h | h
    · exact decide_eq_true (le_of_lt h)
    · exact decide_eq_true (le_of_eq h.1.symm)
  have heq : search_similar sim db q limit threshold =
      collectHits db.metadata threshold limit hits [] := by
    rw [hexpand, List.mergeSort_of_sorted hle]
  refine ⟨?_, ?_, ?_⟩
  · rw [heq]
    by_cases hl : limit = 0
    · have : hits = [] := by
        rw [hhits, hl]
        unfold faissSearch
        simp
      rw [this, hl]
      rw [collectHits]
      simp
    · exact collectHits_length db.metadata threshold limit hits []
        (by simp; omega)
  · rw [heq]
    exact collectHits_threshold db.metadata threshold limit hits []
      (by intro r hr; simp at hr)
  · rw [heq]; exact hcoll

/-- Concrete similarity function (unnormalised inner product) for witnesses. -/
def dotSim (a b : List ℚ) : ℚ :=
  (a.zip b).foldl (fun acc p => acc + p.1 * p.2) 0

/-- Witness for C3 against the concrete two-vector database. -/
theorem search_similar_limit_threshold_order_witness :
    (([1, 0] : List ℚ).length = dbRebuild.dimension ∧
      dbRebuild.metadata ≠ [] ∧ dbRebuild.index ≠ []) ∧
    (search_similar dotSim dbRebuild [1, 0] 5 0).length ≤ 5 ∧
    (∀ r ∈ search_similar dotSim dbRebuild [1, 0] 5 0,
      (0 : ℚ) ≤ r.similarity_score) ∧
    (search_similar dotSim dbRebuild [1, 0] 5 0).Pairwise resultRank :=
  ⟨⟨by decide, by decide, by decide⟩,
   (search_similar_limit_threshold_order dotSim dbRebuild [1, 0] 5 0
      (by decide) (by decide) (by decide)).1,
   (search_similar_limit_threshold_order dotSim dbRebuild [1, 0] 5 0
      (by decide) (by decide) (by decide)).2.1,
   (search_similar_limit_threshold_order dotSim dbRebuild [1, 0] 5 0
      (by decide) (by decide) (by decide)).2.2⟩

end AiFileManager
